import Mathlib

/-!
Verification of the apple-card-csv statement parser.

The development shallowly embeds the repository's JavaScript sources:
`src/lib/parse.js` (page-level layout reconstruction and the row
classification loop, plus the per-document page loop), `src/lib/reverse.js`
(array reversal) and the aggregator module (input validation, per-statement
loop and date sort).  JavaScript objects with integer keys are modelled as
association lists kept in ascending key order, matching the enumeration
order of `Object.values`; `undefined` is `Option.none`; runtime exceptions
are the `Except.error` branch.
-/

set_option linter.unusedVariables false

namespace AppleCardCSV

/-- JavaScript runtime values a transaction field can hold: `undefined`,
`null`, a boolean, or a string. -/
inductive JVal where
  | undefined
  | null
  | bool (b : Bool)
  | str (s : String)
deriving Repr, DecidableEq

/-- JavaScript strict equality on `JVal`: operands of different runtime
types are never strictly equal. -/
def jsStrictEq : JVal → JVal → Bool
  | .undefined, .undefined => true
  | .null, .null => true
  | .bool a, .bool b => a == b
  | .str a, .str b => a == b
  | _, _ => false

/-- JavaScript truthiness of a `string | undefinedined` value: `undefined` and
the empty string are falsy, all other strings are truthy. -/
def jsTruthy : Option String → Bool
  | none => false
  | some s => if s = "" then false else true

/-- JavaScript `a || b` on `string | undefinedined` values: `a` when `a` is
truthy, otherwise `b`. -/
def jsOr (a b : Option String) : Option String :=
  match a with
  | some s => if s = "" then b else some s
  | none => b

/-- The `JVal` stored by a JavaScript assignment of a `string | undefinedined`
expression. -/
def jvalOfOpt : Option String → JVal
  | some s => .str s
  | none => .undefined

/-- Accumulates the decimal value of a digit list; fails on a non-digit. -/
def digitsToNatAux : List Char → Nat → Option Nat
  | [], acc => some acc
  | c :: rest, acc =>
    if c.isDigit then digitsToNatAux rest (acc * 10 + (c.toNat - 48)) else none

/-- Parses a nonempty all-digit character list as a natural number. -/
def digitsToNat : List Char → Option Nat
  | [] => none
  | cs => digitsToNatAux cs 0

/-- Splits a character list on the slash separator. -/
def splitSlashAux : List Char → List Char → List (List Char)
  | [], cur => [cur.reverse]
  | c :: rest, cur =>
    if c = '/' then cur.reverse :: splitSlashAux rest []
    else splitSlashAux rest (c :: cur)

/-- Models the JavaScript built-in `Date.parse` on the date strings occurring
in Apple Card statements: an `MM/DD/YYYY` string parses to a timestamp
surrogate that is strictly monotone in the calendar date; any other string
(including section labels such as "Payments") yields `none`, which stands
for `NaN`. -/
def dateParse (s : String) : Option Nat :=
  match splitSlashAux s.data [] with
  | [m, d, y] =>
    match digitsToNat m, digitsToNat d, digitsToNat y with
    | some mn, some dn, some yn =>
      if 1 ≤ mn && mn ≤ 12 && 1 ≤ dn && dn ≤ 31 then
        some (yn * 10000 + mn * 100 + dn)
      else none
    | _, _, _ => none
  | _ => none

/-- `Date.parse` applied to a `string | undefinedined` value; `none` is `NaN`
(`Date.parse(undefined)` is `NaN`). -/
def jsDateParse : Option String → Option Nat
  | none => none
  | some s => dateParse s

/-- One positioned text fragment of a page as exposed by the rendering
engine: `str` is the fragment text, `transform4` and `transform5` the x and
y entries of its affine transform (integer-valued coordinates). -/
structure Item where
  str : String
  transform4 : Nat
  transform5 : Nat
deriving Repr, DecidableEq

/-- A reconstructed row: a JavaScript object mapping column buckets to text,
kept in ascending integer-key order, the order in which `Object.keys` and
`Object.values` enumerate integer keys. -/
abbrev Row := List (Nat × String)

/-- Property read `v[k]` on a row object. -/
def rowGet : Row → Nat → Option String
  | [], _ => none
  | (k, s) :: rest, q => if q = k then some s else rowGet rest q

/-- Assignment `o[k] = s` on a row object: overwrites an existing key,
otherwise inserts preserving ascending integer-key enumeration order. -/
def rowInsert : Row → Nat → String → Row
  | [], k, s => [(k, s)]
  | (k1, s1) :: rest, k, s =>
    if k < k1 then (k, s) :: (k1, s1) :: rest
    else if k = k1 then (k, s) :: rest
    else (k1, s1) :: rowInsert rest k s

/-- The page-level grouping object of `processPageContent`: y key to row,
in ascending integer-key order. -/
abbrev PageMap := List (Nat × Row)

/-- `o[y][x] = s`, creating `o[y]` when absent. -/
def pageInsert : PageMap → Nat → Nat → String → PageMap
  | [], y, x, s => [(y, [(x, s)])]
  | (y1, r) :: rest, y, x, s =>
    if y < y1 then (y, [(x, s)]) :: (y1, r) :: rest
    else if y = y1 then (y1, rowInsert r x s) :: rest
    else (y1, r) :: pageInsert rest y x s

/-- Whitespace recognized by the modelled `String.prototype.trim`. -/
def isWS (c : Char) : Bool := c = ' ' || c = '\t' || c = '\n' || c = '\r'

/-- Drops leading whitespace characters. -/
def dropWS : List Char → List Char
  | [] => []
  | c :: rest => if isWS c then dropWS rest else c :: rest

/-- Models `item.str.trim()`. -/
def jsTrim (s : String) : String := ⟨(dropWS (dropWS s.data).reverse).reverse⟩

/-- `Math.round(x / 5)` on a natural-valued coordinate, the column bucket
scaling of `processPageContent`. -/
def bucketOf (x : Nat) : Nat := (x + 2) / 5

/-- The grouping loop of `processPageContent`: fragments whose trimmed text
is empty are skipped, the rest are stored at `o[round(y)][round(x/5)]` with
the last writer winning. -/
def groupItems (items : List Item) : PageMap :=
  items.foldl
    (fun o it =>
      let str := jsTrim it.str
      if str = "" then o
      else pageInsert o it.transform5 (bucketOf it.transform4) str)
    []

/-- `Object.values` of the grouping object, in ascending y order. -/
def groupValues (items : List Item) : List Row :=
  (groupItems items).map (fun p => p.2)

/-- The in-place array reversal of `reverse.js`, modelled functionally. -/
def jsReverse (l : List α) : List α := l.reverse

/-- A parsed transaction record.  `Date` and `Description` hold the strings
the source stores; the remaining fields hold whatever JavaScript value the
source assigns (`JVal.undefined` when every consulted column bucket is absent). -/
structure Transaction where
  Date : String
  txType : JVal
  Description : String
  dailyCashPct : JVal
  dailyCashAmt : JVal
  Amount : JVal
deriving Repr, DecidableEq

/-- JavaScript runtime errors the parser can raise. -/
inductive JsErr where
  | typeError (msg : String)
deriving Repr, DecidableEq

/-- State of the row-classification loop: accumulated `results`, the pending
open transaction `row`, and the current transaction `type`. -/
structure LoopState where
  results : List Transaction
  row : Option Transaction
  type : JVal
deriving Repr, DecidableEq

/-- Loop state at the start of a page: no results, no pending row, type
`null`. -/
def initState : LoopState := { results := [], row := none, type := .null }

/-- Effect of the type-marker branch: push any pending transaction and set
the current type to `v[7]` (which may be `undefined`). -/
def typeMarkerStep (st : LoopState) (v : Row) : LoopState :=
  { results := st.results ++ st.row.toList
  , row := none
  , type := jvalOfOpt (rowGet v 7) }

/-- The continuation branch of the source, which appends a line break plus
the description to the pending transaction's `Description`; it dereferences
the pending transaction without a null check, so a missing pending
transaction is a `TypeError`. -/
def contBranch (st : LoopState) (description : String) : Except JsErr LoopState :=
  match st.row with
  | none => .error (.typeError "Cannot read properties of null")
  | some r =>
    .ok { st with row := some { r with Description := r.Description ++ "\n" ++ description } }

/-- One iteration of the row-classification loop of `processPageContent`,
with the continuation branch abstracted as `cont` (instantiated with
`contBranch` in `processRow`).  Branch order follows the source: type-marker
check, description presence check, single-column continuation, date check,
new-transaction creation. -/
def processRowWith (cont : LoopState → String → Except JsErr LoopState)
    (st : LoopState) (v : Row) : Except JsErr LoopState :=
  if (jsDateParse (rowGet v 7)).isNone && v.length == 1 then
    .ok (typeMarkerStep st v)
  else
    match rowGet v 21 with
    | none => .ok st
    | some description =>
      if description = "" then .ok st
      else if v.length == 1 then
        cont st description
      else
        match jsOr (rowGet v 9) (rowGet v 7) with
        | none => .ok st
        | some dt =>
          if (dateParse dt).isNone then .ok st
          else
            .ok { results := st.results ++ st.row.toList
                , row := some
                    { Date := dt
                    , txType := st.type
                    , Description := description
                    , dailyCashPct := jvalOfOpt (jsOr (rowGet v 85) (rowGet v 83))
                    , dailyCashAmt := jvalOfOpt (rowGet v 89)
                    , Amount := jvalOfOpt (jsOr (jsOr (jsOr (jsOr (rowGet v 111)
                        (rowGet v 110)) (rowGet v 109)) (rowGet v 108)) (rowGet v 107)) }
                , type := st.type }

/-- The row-classification step as the source runs it. -/
def processRow : LoopState → Row → Except JsErr LoopState :=
  processRowWith contBranch

/-- `Object.values(r)[0]`: the first enumerated value of a row object. -/
def rowFirstValue (r : Row) : Option String :=
  r.head?.map (fun p => p.2)

/-- The `for` loop of `processPageContent` over the remaining rows:
threads the loop state through `processRow`, propagating any error. -/
def runRows : LoopState → List Row → Except JsErr LoopState
  | st, [] => .ok st
  | st, v :: rest =>
    match processRow st v with
    | .error e => .error e
    | .ok st2 => runRows st2 rest

/-- `processPageContent` of `parse.js`: group the page's items into rows,
reject pages with fewer than 3 rows, drop the 2 footer rows, splice off the
3 header rows, run the header identification checks, then fold the
row-classification loop and flush the pending transaction.  The header
checks translate the source's `!statementText?.toLowerCase() === 'statement'`
literally: a boolean strict-compared to a string.  Reading a second header
row that does not exist (`Object.values(header[1])` with `header[1]`
undefined) is a `TypeError`. -/
def processPageContent (items : List Item) : Except JsErr (List Transaction) :=
  let rows := jsReverse (groupValues items)
  if rows.length < 3 then .ok []
  else
    let rows2 := rows.take (rows.length - 2)
    let header := rows2.take 3
    let rest := rows2.drop 3
    match header with
    | h0 :: h1 :: _ =>
      let statementText := rowFirstValue h0
      let customerText := rowFirstValue h1
      if jsStrictEq (.bool (!(jsTruthy (statementText.map String.toLower))))
          (.str "statement") then .ok []
      else if jsStrictEq (.bool (!(jsTruthy (customerText.map String.toLower))))
          (.str "apple card customer") then .ok []
      else
        match runRows initState rest with
        | .error e => .error e
        | .ok fin => .ok (fin.results ++ fin.row.toList)
    | _ => .error (.typeError "Cannot convert undefined or null to object")

/-- A decoded document handle.  `pages` lists per-page content in document
order; retrieval below is 1-based as in the rendering engine's API (page 1
is the first page of the document). -/
structure PDFDoc where
  pages : List (List Item)
deriving Repr

/-- `doc.getPage(n)`: 1-based page retrieval; out-of-range requests fail. -/
def getPage (doc : PDFDoc) (n : Nat) : Except JsErr (List Item) :=
  if n = 0 then .error (.typeError "Invalid page request")
  else
    match doc.pages.drop (n - 1) with
    | p :: _ => .ok p
    | [] => .error (.typeError "Invalid page request")

/-- The body of the per-document page loop: for each page index, retrieve
`doc.getPage(i)`, process the page content, and append the page's results;
any failure propagates. -/
def runPages (doc : PDFDoc) : List Transaction → List Nat → Except JsErr (List Transaction)
  | acc, [] => .ok acc
  | acc, i :: rest =>
    match getPage doc i with
    | .error e => .error e
    | .ok page =>
      match processPageContent page with
      | .error e => .error e
      | .ok pageResults => runPages doc (acc ++ pageResults) rest

/-- The per-document `parse` of `parse.js`: iterate `i = 1 .. numPages - 1`
(the source's `for (let i = 1; i < NUM_PAGES; i++)`), calling
`doc.getPage(i)` for each index. -/
def docParse (doc : PDFDoc) : Except JsErr (List Transaction) :=
  runPages doc [] (List.range' 1 (doc.pages.length - 1))

/-- The JavaScript values an aggregator caller can pass: a byte buffer
(`Uint8Array`), an array of arbitrary values, or any other value. -/
inductive JSInput where
  | uint8 (bytes : List Nat)
  | arr (elems : List JSInput)
  | other (tag : String)

/-- `instanceof Uint8Array`. -/
def isUint8 : JSInput → Bool
  | .uint8 _ => true
  | _ => false

/-- Extracts the byte buffer of a `Uint8Array` value. -/
def toBuffer : JSInput → Option (List Nat)
  | .uint8 b => some b
  | _ => none

/-- `validateInput` of the aggregator module: a single buffer is wrapped in
a one-element array; an array must contain only buffers; anything else is a
`TypeError`. -/
def validateInput : JSInput → Except JsErr (List (List Nat))
  | .uint8 b => .ok [b]
  | .arr xs =>
    if xs.all isUint8 then .ok (xs.filterMap toBuffer)
    else .error (.typeError "Invalid argument. Array must contain only Uint8Arrays.")
  | .other _ =>
    .error (.typeError "Invalid argument. Must be either a Uint8Array or an array of Uint8Arrays.")

/-- The aggregator's sort comparator, `Date.parse(a.Date) - Date.parse(b.Date)`,
composed with the ECMAScript SortCompare rule that a NaN comparator result
is treated as `+0`. -/
def sortCompare (a b : Transaction) : Int :=
  match dateParse a.Date, dateParse b.Date with
  | some x, some y => (x : Int) - (y : Int)
  | _, _ => 0

/-- Nonpositive comparator result: `a` sorts no later than `b`. -/
def sortLe (a b : Transaction) : Bool := decide (sortCompare a b ≤ 0)

/-- Stable insertion: places `a` before the first element `b` with
`le a b`. -/
def insertLe (le : α → α → Bool) (a : α) : List α → List α
  | [] => [a]
  | b :: bs => if le a b then a :: b :: bs else b :: insertLe le a bs

/-- Models `Array.prototype.sort` under a consistent comparator: ECMAScript
requires the output to be sorted and the sort to be stable, which determines
the output uniquely; stable insertion sort realizes it. -/
def jsSort (le : α → α → Bool) : List α → List α
  | [] => []
  | a :: as => insertLe le a (jsSort le as)

/-- The aggregator's accumulation loop before sorting: validate the input,
then for each statement in input order decode it and run the per-document
parser, concatenating the results.  `decode` stands for the external
rendering engine (`pdf.getDocument`). -/
def runStatements (decode : List Nat → Except JsErr PDFDoc) :
    List Transaction → List (List Nat) → Except JsErr (List Transaction)
  | acc, [] => .ok acc
  | acc, s :: rest =>
    match decode s with
    | .error e => .error e
    | .ok doc =>
      match docParse doc with
      | .error e => .error e
      | .ok data => runStatements decode (acc ++ data) rest

/-- The aggregator's accumulation: validate, then run the statement loop. -/
def aggConcat (decode : List Nat → Except JsErr PDFDoc) (src : JSInput) :
    Except JsErr (List Transaction) :=
  match validateInput src with
  | .error e => .error e
  | .ok statements => runStatements decode [] statements

/-- The aggregator's `parse`: accumulate, then `results.sort(comparator)`. -/
def aggParse (decode : List Nat → Except JsErr PDFDoc) (src : JSInput) :
    Except JsErr (List Transaction) :=
  match aggConcat decode src with
  | .error e => .error e
  | .ok results => .ok (jsSort sortLe results)

/-- The parsed-date key of a transaction (0 when the date does not parse;
every transaction the parser emits has a parsing date). -/
def dateKey (t : Transaction) : Nat := (dateParse t.Date).getD 0

/-- A field value the source can place in the daily-cash and amount slots:
a string or `undefined`, never `null` and never a boolean. -/
def jfieldOk : JVal → Bool
  | .str _ => true
  | .undefined => true
  | _ => false

/-- A value the current-type accumulator can hold: anything except a
boolean. -/
def jtypeOk : JVal → Bool
  | .bool _ => false
  | _ => true

/-- Well-formedness of an emitted transaction: nonempty parsing date,
nonempty description, non-boolean type, and string-or-undefined daily-cash
and amount fields. -/
def txOk (t : Transaction) : Bool :=
  decide (t.Date ≠ "") && (dateParse t.Date).isSome && decide (t.Description ≠ "") &&
  jtypeOk t.txType && jfieldOk t.dailyCashPct && jfieldOk t.dailyCashAmt && jfieldOk t.Amount

/-- Well-formedness of the pending-transaction slot. -/
def rowOk : Option Transaction → Bool
  | none => true
  | some r => txOk r

/-- Invariant carried by the row-classification loop. -/
def stateOk (st : LoopState) : Bool :=
  st.results.all txOk && rowOk st.row && jtypeOk st.type

/-- A statement page: correct header rows, a footer, a type-marker row
("Payments", bucket 7), and one transaction row with a date at bucket 9, a
description at bucket 21 and an amount at bucket 111 (x coordinates 45, 105
and 555 quantize to buckets 9, 21 and 111). -/
def goodPageItems : List Item :=
  [ ⟨"Statement", 35, 100⟩
  , ⟨"Apple Card Customer", 35, 95⟩
  , ⟨"Transactions", 35, 90⟩
  , ⟨"Payments", 35, 82⟩
  , ⟨"03/01/2024", 45, 80⟩
  , ⟨"Coffee Shop", 105, 80⟩
  , ⟨"4.50", 555, 80⟩
  , ⟨"Page 2 of 3", 35, 20⟩
  , ⟨"Apple Card", 35, 10⟩ ]

/-- The transaction the parser extracts from `goodPageItems`. -/
def goodTx : Transaction :=
  { Date := "03/01/2024"
  , txType := .str "Payments"
  , Description := "Coffee Shop"
  , dailyCashPct := .undefined
  , dailyCashAmt := .undefined
  , Amount := .str "4.50" }

/-- The same page with header rows that are not the identifying texts. -/
def badHeaderItems : List Item :=
  [ ⟨"Hello", 35, 100⟩
  , ⟨"World", 35, 95⟩
  , ⟨"Transactions", 35, 90⟩
  , ⟨"Payments", 35, 82⟩
  , ⟨"03/01/2024", 45, 80⟩
  , ⟨"Coffee Shop", 105, 80⟩
  , ⟨"4.50", 555, 80⟩
  , ⟨"Page 2 of 3", 35, 20⟩
  , ⟨"Apple Card", 35, 10⟩ ]

/-- `goodPageItems` with a continuation fragment ("Store #1234", sole column
at description bucket 21) on the line below the transaction row. -/
def contPageItems : List Item :=
  [ ⟨"Statement", 35, 100⟩
  , ⟨"Apple Card Customer", 35, 95⟩
  , ⟨"Transactions", 35, 90⟩
  , ⟨"Payments", 35, 82⟩
  , ⟨"03/01/2024", 45, 80⟩
  , ⟨"Coffee Shop", 105, 80⟩
  , ⟨"4.50", 555, 80⟩
  , ⟨"Store #1234", 105, 78⟩
  , ⟨"Page 2 of 3", 35, 20⟩
  , ⟨"Apple Card", 35, 10⟩ ]

/-- A second statement page with a different transaction and no type
marker. -/
def otherPageItems : List Item :=
  [ ⟨"Statement", 35, 100⟩
  , ⟨"Apple Card Customer", 35, 95⟩
  , ⟨"Transactions", 35, 90⟩
  , ⟨"04/15/2024", 45, 80⟩
  , ⟨"Grocery Store", 105, 80⟩
  , ⟨"12.00", 555, 80⟩
  , ⟨"Page 3 of 3", 35, 20⟩
  , ⟨"Apple Card", 35, 10⟩ ]

/-- The transaction the parser extracts from `otherPageItems`. -/
def otherTx : Transaction :=
  { Date := "04/15/2024"
  , txType := .null
  , Description := "Grocery Store"
  , dailyCashPct := .undefined
  , dailyCashAmt := .undefined
  , Amount := .str "12.00" }

/-- A page that groups into exactly three rows. -/
def threeRowItems : List Item :=
  [ ⟨"A", 35, 30⟩, ⟨"B", 35, 20⟩, ⟨"C", 35, 10⟩ ]

/-- A page that groups into exactly two rows. -/
def twoRowItems : List Item :=
  [ ⟨"A", 35, 20⟩, ⟨"B", 35, 10⟩ ]

/-- A two-page document: `goodPageItems` as the cover page (page 1) and
`otherPageItems` as the last page (page 2). -/
def doc2 : PDFDoc := ⟨[goodPageItems, otherPageItems]⟩

/-- A multi-column transaction row exercising the fallback buckets. -/
def sampleRow : Row :=
  [(9, "03/01/2024"), (21, "Coffee Shop"), (83, "2%"), (89, "0.09"), (111, "4.50")]

/-- A loop state with a pending (open) transaction. -/
def pendingState : LoopState := { results := [], row := some goodTx, type := .null }

/-- A loop state with a pending transaction and a current type. -/
def openState : LoopState := { results := [], row := some goodTx, type := .str "Payments" }

/-- A single-column row whose sole value sits at bucket 7 and parses as a
date. -/
def dateOnlyRow : Row := [(7, "03/01/2024")]

/-- A single-column continuation row: only a description fragment at
bucket 21. -/
def contRow : Row := [(21, "Store #1234")]

/-- A decode stub standing for the external rendering engine. -/
def decode0 : List Nat → Except JsErr PDFDoc := fun _ => .ok ⟨[]⟩

/-! ## Helper lemmas -/

/-- A successful property read comes from an entry of the row object. -/
theorem rowGet_some_mem {k : Nat} {s : String} {v : Row} (h : rowGet v k = some s) :
    (k, s) ∈ v := by
  induction v with
  | nil => simp [rowGet] at h
  | cons p rest ih =>
    obtain ⟨k1, s1⟩ := p
    by_cases hk : k = k1
    · subst hk
      simp [rowGet] at h
      subst h
      exact List.mem_cons_self _ _
    · simp [rowGet, hk] at h
      exact List.mem_cons_of_mem _ (ih h)

/-- A row object holding entries at two distinct keys has at least two
entries. -/
theorem length_ge_two_of_mem_ne {v : Row} {k1 k2 : Nat} {s1 s2 : String}
    (h1 : (k1, s1) ∈ v) (h2 : (k2, s2) ∈ v) (hne : k1 ≠ k2) : 2 ≤ v.length := by
  match v with
  | [] => simp at h1
  | [p] =>
    simp only [List.mem_singleton] at h1 h2
    exact absurd (congrArg Prod.fst (h1.trans h2.symm)) hne
  | p :: q :: rest =>
    simp only [List.length_cons]
    omega

/-- Case analysis of a truthy JavaScript disjunction. -/
theorem jsOr_eq_some {a b : Option String} {s : String} (h : jsOr a b = some s) :
    a = some s ∨ b = some s := by
  cases a with
  | none => exact Or.inr h
  | some t =>
    simp only [jsOr] at h
    by_cases ht : t = ""
    · rw [if_pos ht] at h
      exact Or.inr h
    · rw [if_neg ht] at h
      exact Or.inl h

/-- A row with both a description value and a date value has at least two
columns. -/
theorem length_ge_two {v : Row} {d dt : String}
    (hdesc : rowGet v 21 = some d)
    (hdate : jsOr (rowGet v 9) (rowGet v 7) = some dt) : 2 ≤ v.length := by
  have h21 := rowGet_some_mem hdesc
  rcases jsOr_eq_some hdate with h9 | h7
  · exact length_ge_two_of_mem_ne (rowGet_some_mem h9) h21 (by decide)
  · exact length_ge_two_of_mem_ne (rowGet_some_mem h7) h21 (by decide)

/-- A one-entry row object is a singleton association list. -/
theorem singleton_of_length_one {v : Row} (h : v.length = 1) :
    ∃ k s, v = [(k, s)] := by
  match v with
  | [(k, s)] => exact ⟨k, s, rfl⟩
  | [] => simp at h
  | p :: q :: rest => simp at h

/-- The current type the source stores is never a boolean. -/
theorem jtypeOk_jvalOfOpt (o : Option String) : jtypeOk (jvalOfOpt o) = true := by
  cases o <;> rfl

/-- A stored field value is a string or `undefined`. -/
theorem jfieldOk_jvalOfOpt (o : Option String) : jfieldOk (jvalOfOpt o) = true := by
  cases o <;> rfl

/-- The empty string does not parse as a date. -/
theorem dateParse_empty : dateParse "" = none := rfl

/-- A string that parses as a date is nonempty. -/
theorem ne_empty_of_dateParse {s : String} (h : (dateParse s).isSome = true) :
    s ≠ "" := by
  intro he
  rw [he, dateParse_empty] at h
  simp at h

/-- A string with a nonempty left part is nonempty after appending. -/
theorem append_ne_empty_left (a b : String) (h : a ≠ "") : a ++ b ≠ "" := by
  intro hab
  apply h
  have hd : a.data ++ b.data = [] := by
    have := congrArg String.data hab
    simpa using this
  rcases List.append_eq_nil.mp hd with ⟨ha, _⟩
  exact String.ext (ha.trans rfl)

/-- Flushing the pending transaction into the results preserves
well-formedness of the result list. -/
theorem all_flush {results : List Transaction} {row : Option Transaction}
    (hres : results.all txOk = true) (hrow : rowOk row = true) :
    (results ++ row.toList).all txOk = true := by
  rw [List.all_append, hres, Bool.true_and]
  cases row with
  | none => rfl
  | some r => simpa [rowOk, List.all] using hrow

/-- A well-formed loop state flushes to a well-formed transaction list. -/
theorem stateOk_flush {st : LoopState} (h : stateOk st = true) :
    (st.results ++ st.row.toList).all txOk = true := by
  simp only [stateOk, Bool.and_eq_true] at h
  exact all_flush h.1.1 h.1.2

/-! Equations characterizing the branches of `processRow`. -/

/-- Type-marker branch equation. -/
theorem processRow_type (st : LoopState) (v : Row)
    (hc : ((jsDateParse (rowGet v 7)).isNone && v.length == 1) = true) :
    processRow st v = .ok (typeMarkerStep st v) := by
  unfold processRow processRowWith
  rw [if_pos hc]

/-- Missing-description skip equation. -/
theorem processRow_nodesc (st : LoopState) (v : Row)
    (hc : ¬((jsDateParse (rowGet v 7)).isNone && v.length == 1) = true)
    (h21 : rowGet v 21 = none) : processRow st v = .ok st := by
  unfold processRow processRowWith
  rw [if_neg hc, h21]

/-- Empty-description skip equation. -/
theorem processRow_empty_desc (st : LoopState) (v : Row) (d : String)
    (hc : ¬((jsDateParse (rowGet v 7)).isNone && v.length == 1) = true)
    (h21 : rowGet v 21 = some d) (hd : d = "") : processRow st v = .ok st := by
  unfold processRow processRowWith
  rw [if_neg hc, h21]
  dsimp only
  rw [if_pos hd]

/-- Continuation branch equation. -/
theorem processRow_cont (st : LoopState) (v : Row) (d : String)
    (hc : ¬((jsDateParse (rowGet v 7)).isNone && v.length == 1) = true)
    (h21 : rowGet v 21 = some d) (hd : ¬ d = "")
    (hlen : (v.length == 1) = true) : processRow st v = contBranch st d := by
  unfold processRow processRowWith
  rw [if_neg hc, h21]
  dsimp only
  rw [if_neg hd, if_pos hlen]

/-- Missing-date skip equation. -/
theorem processRow_nodate (st : LoopState) (v : Row) (d : String)
    (hc : ¬((jsDateParse (rowGet v 7)).isNone && v.length == 1) = true)
    (h21 : rowGet v 21 = some d) (hd : ¬ d = "")
    (hlen : ¬(v.length == 1) = true)
    (hdt : jsOr (rowGet v 9) (rowGet v 7) = none) : processRow st v = .ok st := by
  unfold processRow processRowWith
  rw [if_neg hc, h21]
  dsimp only
  rw [if_neg hd, if_neg hlen, hdt]

/-- Unparseable-date skip equation. -/
theorem processRow_baddate (st : LoopState) (v : Row) (d dt : String)
    (hc : ¬((jsDateParse (rowGet v 7)).isNone && v.length == 1) = true)
    (h21 : rowGet v 21 = some d) (hd : ¬ d = "")
    (hlen : ¬(v.length == 1) = true)
    (hdt : jsOr (rowGet v 9) (rowGet v 7) = some dt)
    (hp : (dateParse dt).isNone = true) : processRow st v = .ok st := by
  unfold processRow processRowWith
  rw [if_neg hc, h21]
  dsimp only
  rw [if_neg hd, if_neg hlen, hdt]
  dsimp only
  rw [if_pos hp]

/-- New-transaction creation equation: the created record's fields follow
the source's fixed fallback chains. -/
theorem processRow_create (st : LoopState) (v : Row) (d dt : String)
    (hc : ¬((jsDateParse (rowGet v 7)).isNone && v.length == 1) = true)
    (h21 : rowGet v 21 = some d) (hd : ¬ d = "")
    (hlen : ¬(v.length == 1) = true)
    (hdt : jsOr (rowGet v 9) (rowGet v 7) = some dt)
    (hp : ¬(dateParse dt).isNone = true) :
    processRow st v = .ok
      { results := st.results ++ st.row.toList
      , row := some
          { Date := dt
          , txType := st.type
          , Description := d
          , dailyCashPct := jvalOfOpt (jsOr (rowGet v 85) (rowGet v 83))
          , dailyCashAmt := jvalOfOpt (rowGet v 89)
          , Amount := jvalOfOpt (jsOr (jsOr (jsOr (jsOr (rowGet v 111) (rowGet v 110))
              (rowGet v 109)) (rowGet v 108)) (rowGet v 107)) }
      , type := st.type } := by
  unfold processRow processRowWith
  rw [if_neg hc, h21]
  dsimp only
  rw [if_neg hd, if_neg hlen, hdt]
  dsimp only
  rw [if_neg hp]

/-- One step of the row-classification loop preserves the loop invariant. -/
theorem processRow_preserves {st st' : LoopState} {v : Row}
    (hok : stateOk st = true) (h : processRow st v = .ok st') :
    stateOk st' = true := by
  simp only [stateOk, Bool.and_eq_true] at hok
  obtain ⟨⟨hres, hrow⟩, htype⟩ := hok
  by_cases hc : ((jsDateParse (rowGet v 7)).isNone && v.length == 1) = true
  · rw [processRow_type st v hc] at h
    injection h with h
    subst h
    simp only [stateOk, typeMarkerStep, Bool.and_eq_true]
    exact ⟨⟨all_flush hres hrow, rfl⟩, jtypeOk_jvalOfOpt _⟩
  · cases h21 : rowGet v 21 with
    | none =>
      rw [processRow_nodesc st v hc h21] at h
      injection h with h
      subst h
      simp only [stateOk, Bool.and_eq_true]
      exact ⟨⟨hres, hrow⟩, htype⟩
    | some d =>
      by_cases hd : d = ""
      · rw [processRow_empty_desc st v d hc h21 hd] at h
        injection h with h
        subst h
        simp only [stateOk, Bool.and_eq_true]
        exact ⟨⟨hres, hrow⟩, htype⟩
      · by_cases hlen : (v.length == 1) = true
        · rw [processRow_cont st v d hc h21 hd hlen] at h
          unfold contBranch at h
          cases hr : st.row with
          | none =>
            rw [hr] at h
            exact Except.noConfusion h
          | some r =>
            rw [hr] at h
            dsimp only at h
            injection h with h
            subst h
            rw [hr] at hrow
            simp only [rowOk] at hrow
            simp only [stateOk, rowOk, Bool.and_eq_true]
            refine ⟨⟨hres, ?_⟩, htype⟩
            simp only [txOk, Bool.and_eq_true, decide_eq_true_eq] at hrow ⊢
            obtain ⟨⟨⟨⟨⟨⟨hD, hDp⟩, hDesc⟩, hT⟩, hP⟩, hA⟩, hM⟩ := hrow
            exact ⟨⟨⟨⟨⟨⟨hD, hDp⟩,
              append_ne_empty_left _ _ (append_ne_empty_left _ _ hDesc)⟩, hT⟩, hP⟩, hA⟩, hM⟩
        · cases hdt : jsOr (rowGet v 9) (rowGet v 7) with
          | none =>
            rw [processRow_nodate st v d hc h21 hd hlen hdt] at h
            injection h with h
            subst h
            simp only [stateOk, Bool.and_eq_true]
            exact ⟨⟨hres, hrow⟩, htype⟩
          | some dt =>
            by_cases hp : (dateParse dt).isNone = true
            · rw [processRow_baddate st v d dt hc h21 hd hlen hdt hp] at h
              injection h with h
              subst h
              simp only [stateOk, Bool.and_eq_true]
              exact ⟨⟨hres, hrow⟩, htype⟩
            · rw [processRow_create st v d dt hc h21 hd hlen hdt hp] at h
              injection h with h
              subst h
              have hps : (dateParse dt).isSome = true := by
                cases hdp : dateParse dt with
                | none => rw [hdp] at hp; simp at hp
                | some n => rfl
              simp only [stateOk, rowOk, Bool.and_eq_true]
              refine ⟨⟨all_flush hres hrow, ?_⟩, htype⟩
              simp only [txOk, Bool.and_eq_true, decide_eq_true_eq]
              exact ⟨⟨⟨⟨⟨⟨ne_empty_of_dateParse hps, hps⟩, hd⟩, htype⟩,
                jfieldOk_jvalOfOpt _⟩, jfieldOk_jvalOfOpt _⟩, jfieldOk_jvalOfOpt _⟩

/-- Running the row loop from a well-formed state yields a well-formed
state. -/
theorem runRows_preserves {rows : List Row} :
    ∀ {st st' : LoopState}, stateOk st = true → runRows st rows = .ok st' →
      stateOk st' = true := by
  induction rows with
  | nil =>
    intro st st' hok h
    unfold runRows at h
    injection h with h
    subst h
    exact hok
  | cons v rest ih =>
    intro st st' hok h
    unfold runRows at h
    split at h
    · exact Except.noConfusion h
    next st2 hstep => exact ih (processRow_preserves hok hstep) h

/-- Every transaction list a page produces consists of well-formed
transactions. -/
theorem processPageContent_all_txOk {items : List Item} {ts : List Transaction}
    (h : processPageContent items = .ok ts) : ts.all txOk = true := by
  simp only [processPageContent, jsReverse] at h
  repeat' split at h
  all_goals first
    | exact Except.noConfusion h
    | (injection h with h; subst h; rfl)
    | (injection h with h; subst h;
       exact stateOk_flush (runRows_preserves
         (show stateOk initState = true from rfl) (by assumption)))

/-- The page loop preserves well-formedness of the accumulated list. -/
theorem runPages_all_txOk {doc : PDFDoc} {idxs : List Nat} :
    ∀ {acc ts : List Transaction}, acc.all txOk = true →
      runPages doc acc idxs = .ok ts → ts.all txOk = true := by
  induction idxs with
  | nil =>
    intro acc ts hacc h
    unfold runPages at h
    injection h with h
    subst h
    exact hacc
  | cons i rest ih =>
    intro acc ts hacc h
    unfold runPages at h
    split at h
    · exact Except.noConfusion h
    next page hpage =>
      split at h
      · exact Except.noConfusion h
      next rs hrs =>
        refine ih ?_ h
        rw [List.all_append, hacc, Bool.true_and]
        exact processPageContent_all_txOk hrs

/-- Every transaction a document parse produces is well-formed. -/
theorem docParse_all_txOk {doc : PDFDoc} {ts : List Transaction}
    (h : docParse doc = .ok ts) : ts.all txOk = true :=
  runPages_all_txOk (show List.all [] txOk = true from rfl) h

/-- The statement loop preserves well-formedness of the accumulated list. -/
theorem runStatements_all_txOk {decode : List Nat → Except JsErr PDFDoc}
    {stmts : List (List Nat)} :
    ∀ {acc ts : List Transaction}, acc.all txOk = true →
      runStatements decode acc stmts = .ok ts → ts.all txOk = true := by
  induction stmts with
  | nil =>
    intro acc ts hacc h
    unfold runStatements at h
    injection h with h
    subst h
    exact hacc
  | cons s rest ih =>
    intro acc ts hacc h
    unfold runStatements at h
    split at h
    · exact Except.noConfusion h
    next doc hdoc =>
      split at h
      · exact Except.noConfusion h
      next data hdata =>
        refine ih ?_ h
        rw [List.all_append, hacc, Bool.true_and]
        exact docParse_all_txOk hdata

/-- Every transaction the aggregator accumulates is well-formed. -/
theorem aggConcat_all_txOk {decode : List Nat → Except JsErr PDFDoc}
    {src : JSInput} {ts : List Transaction}
    (h : aggConcat decode src = .ok ts) : ts.all txOk = true := by
  unfold aggConcat at h
  split at h
  · exact Except.noConfusion h
  · exact runStatements_all_txOk (show List.all [] txOk = true from rfl) h

/-- Every well-formed transaction carries a parsing date. -/
theorem txOk_date_isSome {t : Transaction} (h : txOk t = true) :
    (dateParse t.Date).isSome = true := by
  simp only [txOk, Bool.and_eq_true] at h
  exact h.1.1.1.1.1.2

/-! ## Sorting lemmas -/

/-- Membership in a stable insertion. -/
theorem mem_insertLe {le : α → α → Bool} {a x : α} {l : List α} :
    x ∈ insertLe le a l ↔ x = a ∨ x ∈ l := by
  induction l with
  | nil => simp [insertLe]
  | cons b bs ih =>
    unfold insertLe
    by_cases h : le a b = true
    · rw [if_pos h]
      simp [List.mem_cons]
    · rw [if_neg h]
      simp [List.mem_cons, ih]
      tauto

/-- Stable insertion permutes consing. -/
theorem perm_insertLe (le : α → α → Bool) (a : α) (l : List α) :
    List.Perm (insertLe le a l) (a :: l) := by
  induction l with
  | nil => exact List.Perm.refl _
  | cons b bs ih =>
    unfold insertLe
    by_cases h : le a b = true
    · rw [if_pos h]
    · rw [if_neg h]
      exact (List.Perm.cons b ih).trans (List.Perm.swap a b bs)

/-- Stable insertion preserves sortedness, on elements satisfying `P`,
for a comparison total and transitive on `P`. -/
theorem pairwise_insertLe {le : α → α → Bool} {P : α → Prop}
    (htot : ∀ x y, P x → P y → le x y = true ∨ le y x = true)
    (htrans : ∀ x y z, P x → P y → P z → le x y = true → le y z = true → le x z = true)
    {a : α} {l : List α} (hpa : P a) (hpl : ∀ x ∈ l, P x)
    (hs : l.Pairwise (fun x y => le x y = true)) :
    (insertLe le a l).Pairwise (fun x y => le x y = true) := by
  induction l with
  | nil => simp [insertLe]
  | cons b bs ih =>
    have hpb : P b := hpl b (List.mem_cons_self b bs)
    have hpbs : ∀ x ∈ bs, P x := fun x hx => hpl x (List.mem_cons_of_mem b hx)
    rcases List.pairwise_cons.mp hs with ⟨hb, hbs⟩
    unfold insertLe
    by_cases h : le a b = true
    · rw [if_pos h]
      refine List.pairwise_cons.mpr ⟨?_, hs⟩
      intro x hx
      rcases List.mem_cons.mp hx with rfl | hx
      · exact h
      · exact htrans a b x hpa hpb (hpbs x hx) h (hb x hx)
    · rw [if_neg h]
      have hba : le b a = true := (htot a b hpa hpb).resolve_left h
      refine List.pairwise_cons.mpr ⟨?_, ih hpbs hbs⟩
      intro x hx
      rcases mem_insertLe.mp hx with rfl | hx
      · exact hba
      · exact hb x hx

/-- Membership in the sorted list. -/
theorem mem_jsSort {le : α → α → Bool} {x : α} {l : List α} :
    x ∈ jsSort le l ↔ x ∈ l := by
  induction l with
  | nil => simp [jsSort]
  | cons a as ih =>
    unfold jsSort
    rw [mem_insertLe, ih]
    simp [List.mem_cons]

/-- The sort output is a permutation of its input. -/
theorem perm_jsSort (le : α → α → Bool) (l : List α) :
    List.Perm (jsSort le l) l := by
  induction l with
  | nil => exact List.Perm.refl _
  | cons a as ih =>
    unfold jsSort
    exact (perm_insertLe le a (jsSort le as)).trans (List.Perm.cons a ih)

/-- The sort output is sorted, on elements satisfying `P`, for a comparison
total and transitive on `P`. -/
theorem pairwise_jsSort {le : α → α → Bool} {P : α → Prop}
    (htot : ∀ x y, P x → P y → le x y = true ∨ le y x = true)
    (htrans : ∀ x y z, P x → P y → P z → le x y = true → le y z = true → le x z = true)
    {l : List α} (hpl : ∀ x ∈ l, P x) :
    (jsSort le l).Pairwise (fun x y => le x y = true) := by
  induction l with
  | nil => simp [jsSort]
  | cons a as ih =>
    unfold jsSort
    exact pairwise_insertLe htot htrans (hpl a (List.mem_cons_self a as))
      (fun x hx => hpl x (List.mem_cons_of_mem a (mem_jsSort.mp hx)))
      (ih fun x hx => hpl x (List.mem_cons_of_mem a hx))

/-- On transactions with parsing dates, the comparator orders by date
key. -/
theorem sortLe_iff {a b : Transaction}
    (ha : (dateParse a.Date).isSome = true) (hb : (dateParse b.Date).isSome = true) :
    sortLe a b = true ↔ dateKey a ≤ dateKey b := by
  rcases Option.isSome_iff_exists.mp ha with ⟨x, hx⟩
  rcases Option.isSome_iff_exists.mp hb with ⟨y, hy⟩
  simp only [sortLe, sortCompare, dateKey, hx, hy, Option.getD_some, decide_eq_true_eq]
  omega

/-- A strictly later element compares strictly greater. -/
theorem dateKey_lt_of_not_le {a b : Transaction}
    (ha : (dateParse a.Date).isSome = true) (hb : (dateParse b.Date).isSome = true)
    (h : ¬ sortLe a b = true) : dateKey b < dateKey a := by
  rcases Nat.lt_or_ge (dateKey b) (dateKey a) with hlt | hge
  · exact hlt
  · exact absurd ((sortLe_iff ha hb).mpr hge) h

/-- The comparator is total on transactions with parsing dates. -/
theorem sortLe_total (a b : Transaction)
    (ha : (dateParse a.Date).isSome = true) (hb : (dateParse b.Date).isSome = true) :
    sortLe a b = true ∨ sortLe b a = true := by
  rcases Nat.le_total (dateKey a) (dateKey b) with h | h
  · exact Or.inl ((sortLe_iff ha hb).mpr h)
  · exact Or.inr ((sortLe_iff hb ha).mpr h)

/-- The comparator is transitive on transactions with parsing dates. -/
theorem sortLe_trans (a b c : Transaction)
    (ha : (dateParse a.Date).isSome = true) (hb : (dateParse b.Date).isSome = true)
    (hc : (dateParse c.Date).isSome = true)
    (hab : sortLe a b = true) (hbc : sortLe b c = true) : sortLe a c = true :=
  (sortLe_iff ha hc).mpr (Nat.le_trans ((sortLe_iff ha hb).mp hab) ((sortLe_iff hb hc).mp hbc))

/-- Stability of one insertion, phrased through date-class filters. -/
theorem filter_insertLe (dk : Nat) {a : Transaction} {l : List Transaction}
    (hpa : (dateParse a.Date).isSome = true)
    (hpl : ∀ x ∈ l, (dateParse x.Date).isSome = true) :
    (insertLe sortLe a l).filter (fun t => dateKey t == dk) =
      (if dateKey a == dk then a :: l.filter (fun t => dateKey t == dk)
       else l.filter (fun t => dateKey t == dk)) := by
  induction l with
  | nil =>
    unfold insertLe
    by_cases had : (dateKey a == dk) = true
    · rw [if_pos had]
      simp [List.filter, had]
    · rw [if_neg had]
      simp only [List.filter]
      rw [Bool.of_not_eq_true had]
  | cons b bs ih =>
    have hpb := hpl b (List.mem_cons_self b bs)
    have hpbs : ∀ x ∈ bs, (dateParse x.Date).isSome = true :=
      fun x hx => hpl x (List.mem_cons_of_mem b hx)
    unfold insertLe
    by_cases h : sortLe a b = true
    · rw [if_pos h]
      by_cases had : (dateKey a == dk) = true <;>
        simp [List.filter_cons, had]
    · rw [if_neg h]
      have hlt : dateKey b < dateKey a := dateKey_lt_of_not_le hpa hpb h
      by_cases had : (dateKey a == dk) = true
      · have had2 : dateKey a = dk := by simpa using had
        have hbd : (dateKey b == dk) = false := by
          simp only [beq_eq_false_iff_ne, ne_eq]
          omega
        rw [if_pos had]
        simp [List.filter_cons, hbd, ih hpbs, had]
      · rw [if_neg had]
        simp [List.filter_cons, ih hpbs, had]

/-- Stability of the full sort: each date class of the output equals the
same date class of the input, in order. -/
theorem filter_jsSort (dk : Nat) {l : List Transaction}
    (hpl : ∀ x ∈ l, (dateParse x.Date).isSome = true) :
    (jsSort sortLe l).filter (fun t => dateKey t == dk) =
      l.filter (fun t => dateKey t == dk) := by
  induction l with
  | nil => rfl
  | cons a as ih =>
    have hpa := hpl a (List.mem_cons_self a as)
    have hpas : ∀ x ∈ as, (dateParse x.Date).isSome = true :=
      fun x hx => hpl x (List.mem_cons_of_mem a hx)
    have hsorted : ∀ x ∈ jsSort sortLe as, (dateParse x.Date).isSome = true :=
      fun x hx => hpas x (mem_jsSort.mp hx)
    unfold jsSort
    rw [filter_insertLe dk hpa hsorted, ih hpas]
    by_cases had : (dateKey a == dk) = true <;>
      simp [List.filter_cons, had]

/-! ## Claim theorems -/

/-- C1: the claim says a page is accepted as a statement page only if its
first two header rows carry the identifying texts, every other page being
skipped with an empty result.  The source's checks compare the boolean
`!statementText?.toLowerCase()` to a string with strict equality, which is
always false, so the header check never rejects: the page with header rows
"Hello" / "World" is parsed and yields a transaction instead of being
skipped. -/
theorem c1_header_mismatch_not_skipped :
    (∀ (b : Bool) (s : String), jsStrictEq (.bool b) (.str s) = false) ∧
    processPageContent badHeaderItems = .ok [goodTx] ∧
    [goodTx] ≠ ([] : List Transaction) :=
  ⟨fun b s => rfl, rfl, by simp⟩

/-- C2: the claim says a single-column description-only row following an
open transaction appends a line break plus the description to the open
transaction's description.  In the source such a row satisfies the
type-marker test (`Date.parse(undefined)` is `NaN` and the row has one
column), so it instead finalizes the open transaction and sets the current
type to `undefined`; on the full page the continuation text is dropped and
the description stays "Coffee Shop". -/
theorem c2_continuation_row_closes_transaction :
    processRow openState contRow =
      .ok { results := [goodTx], row := none, type := .undefined } ∧
    processPageContent contPageItems = .ok [goodTx] ∧
    goodTx.Description = "Coffee Shop" :=
  ⟨rfl, rfl, rfl⟩

/-- C3 counterexample: the claim says the daily-cash and amount fields are
a string or `null`, never `undefined`.  The transaction parsed from
`goodPageItems` has `Daily Cash ($)` equal to `undefined`, which is neither
a string nor `null`. -/
theorem c3_counterexample_daily_cash_undefined :
    processPageContent goodPageItems = .ok [goodTx] ∧
    goodTx.dailyCashAmt = JVal.undefined ∧
    (∀ s, JVal.undefined ≠ JVal.str s) ∧ JVal.undefined ≠ JVal.null :=
  ⟨rfl, rfl, fun s h => JVal.noConfusion h, fun h => JVal.noConfusion h⟩

/-- C3 (amended): every transaction a page produces has a nonempty,
date-parsing `Date`, a nonempty `Description`, a type that is a string,
`null` or `undefined` (never a boolean), and daily-cash and amount fields
that are a string or `undefined` (never `null`). -/
theorem c3_transaction_fields (items : List Item) (ts : List Transaction)
    (t : Transaction) (h : processPageContent items = .ok ts) (ht : t ∈ ts) :
    txOk t = true := by
  have hall := processPageContent_all_txOk h
  rw [List.all_eq_true] at hall
  exact hall t ht

/-- Witness for C3: the concrete page yields `goodTx`, which satisfies the
amended field invariant. -/
theorem c3_transaction_fields_witness :
    processPageContent goodPageItems = .ok [goodTx] ∧ txOk goodTx = true :=
  ⟨rfl, c3_transaction_fields goodPageItems [goodTx] goodTx rfl
    (List.mem_singleton.mpr rfl)⟩

/-- C4: the claim says the document parser parses exactly pages 2 through N.
The source iterates `doc.getPage(i)` for `i = 1 .. N - 1` with the 1-based
page API, so on the two-page document `doc2` it parses page 1 (the cover,
`goodPageItems`) and never page 2 (`otherPageItems`), whose transaction
differs. -/
theorem c4_first_pages_parsed :
    docParse doc2 = .ok [goodTx] ∧
    processPageContent otherPageItems = .ok [otherTx] ∧
    goodTx ≠ otherTx :=
  ⟨rfl, rfl, by decide⟩

/-- C5: the claim says the page parser never raises, and in particular that
a page with exactly 3 rows returns an empty list.  A 3-row page passes the
row-count guard, loses 2 footer rows, and then reading the second header
row (`Object.values(header[1])` with `header[1]` undefined) raises a
`TypeError`. -/
theorem c5_three_row_page_type_error :
    processPageContent threeRowItems =
      .error (.typeError "Cannot convert undefined or null to object") := rfl

/-- C6: an input that is neither a single buffer nor an array of buffers is
rejected with a `TypeError` whose production does not depend on the decode
collaborator, so no decoding is attempted and no partial work is
performed. -/
theorem c6_invalid_input_rejected (src : JSInput)
    (h1 : ∀ b, src ≠ .uint8 b)
    (h2 : ∀ xs, src = .arr xs → xs.all isUint8 = false) :
    ∃ msg, ∀ decode, aggParse decode src = .error (.typeError msg) := by
  cases src with
  | uint8 b => exact absurd rfl (h1 b)
  | arr xs =>
    refine ⟨"Invalid argument. Array must contain only Uint8Arrays.", fun decode => ?_⟩
    have hall := h2 xs rfl
    simp [aggParse, aggConcat, validateInput, hall]
  | other tag =>
    exact ⟨"Invalid argument. Must be either a Uint8Array or an array of Uint8Arrays.",
      fun decode => rfl⟩

/-- Witness for C6 at the concrete non-buffer input `other "42"`. -/
theorem c6_invalid_input_rejected_witness :
    (∀ b, JSInput.other "42" ≠ .uint8 b) ∧
    (∃ msg, ∀ decode, aggParse decode (.other "42") = .error (.typeError msg)) :=
  ⟨fun b h => JSInput.noConfusion h,
   c6_invalid_input_rejected (.other "42") (fun b h => JSInput.noConfusion h)
     (fun xs h => JSInput.noConfusion h)⟩

/-- C7: every successful aggregator run returns the stable date-ascending
sort of the concatenation of the per-document results in input order:
the output is the sort of the accumulated list, it is pairwise ordered by
parsed date, and each equal-date class keeps its original concatenation
order. -/
theorem c7_agg_sorted_stable (decode : List Nat → Except JsErr PDFDoc)
    (src : JSInput) (out : List Transaction)
    (h : aggParse decode src = .ok out) :
    ∃ raw, aggConcat decode src = .ok raw ∧ out = jsSort sortLe raw ∧
      out.Pairwise (fun a b => dateKey a ≤ dateKey b) ∧
      (∀ dk : Nat, out.filter (fun t => dateKey t == dk) =
        raw.filter (fun t => dateKey t == dk)) := by
  unfold aggParse at h
  split at h
  · exact Except.noConfusion h
  next raw hraw =>
    injection h with h
    subst h
    have hall : ∀ x ∈ raw, (dateParse x.Date).isSome = true := by
      intro x hx
      have hok := aggConcat_all_txOk hraw
      rw [List.all_eq_true] at hok
      exact txOk_date_isSome (hok x hx)
    refine ⟨raw, hraw, rfl, ?_, ?_⟩
    · have hp := pairwise_jsSort (P := fun t : Transaction => (dateParse t.Date).isSome = true)
        sortLe_total sortLe_trans hall
      refine List.Pairwise.imp_of_mem ?_ hp
      intro a b ha hb hab
      exact (sortLe_iff (hall a (mem_jsSort.mp ha)) (hall b (mem_jsSort.mp hb))).mp hab
    · intro dk
      exact filter_jsSort dk hall

/-- Witness for C7 at a concrete run: a single empty document parses to an
empty, trivially sorted output. -/
theorem c7_agg_sorted_stable_witness :
    aggParse decode0 (.uint8 [0]) = .ok [] ∧
    (∃ raw, aggConcat decode0 (.uint8 [0]) = .ok raw ∧
      ([] : List Transaction) = jsSort sortLe raw ∧
      List.Pairwise (fun a b => dateKey a ≤ dateKey b) ([] : List Transaction) ∧
      (∀ dk : Nat, ([] : List Transaction).filter (fun t => dateKey t == dk) =
        raw.filter (fun t => dateKey t == dk))) :=
  ⟨rfl, c7_agg_sorted_stable decode0 (.uint8 [0]) [] rfl⟩

/-- C8: a row the loop classifies as a new transaction (description value
present, date value from bucket 9 falling back to bucket 7, date parsing)
creates a record whose fields follow the fixed fallback chains:
daily-cash-percent from bucket 85 else 83, daily-cash-amount from bucket
89, and amount as the first truthy of buckets 111, 110, 109, 108, 107. -/
theorem c8_new_transaction_fields (st : LoopState) (v : Row) (d dt : String)
    (hdesc : rowGet v 21 = some d) (hd : d ≠ "")
    (hdate : jsOr (rowGet v 9) (rowGet v 7) = some dt)
    (hparse : (dateParse dt).isSome = true) :
    processRow st v = .ok
      { results := st.results ++ st.row.toList
      , row := some
          { Date := dt
          , txType := st.type
          , Description := d
          , dailyCashPct := jvalOfOpt (jsOr (rowGet v 85) (rowGet v 83))
          , dailyCashAmt := jvalOfOpt (rowGet v 89)
          , Amount := jvalOfOpt (jsOr (jsOr (jsOr (jsOr (rowGet v 111) (rowGet v 110))
              (rowGet v 109)) (rowGet v 108)) (rowGet v 107)) }
      , type := st.type } := by
  have h2 := length_ge_two hdesc hdate
  have hlen : ¬(v.length == 1) = true := by
    intro hb
    have hv1 : v.length = 1 := by simpa using hb
    omega
  have hc : ¬((jsDateParse (rowGet v 7)).isNone && v.length == 1) = true := by
    intro hb
    simp only [Bool.and_eq_true] at hb
    exact hlen hb.2
  have hp : ¬(dateParse dt).isNone = true := by
    intro hb
    rw [Option.isNone_iff_eq_none] at hb
    rw [hb] at hparse
    simp at hparse
  exact processRow_create st v d dt hc hdesc hd hlen hdate hp

/-- Witness for C8 at a concrete multi-column row. -/
theorem c8_new_transaction_fields_witness :
    rowGet sampleRow 21 = some "Coffee Shop" ∧
    jsOr (rowGet sampleRow 9) (rowGet sampleRow 7) = some "03/01/2024" ∧
    processRow initState sampleRow = .ok
      { results := []
      , row := some
          { Date := "03/01/2024"
          , txType := .null
          , Description := "Coffee Shop"
          , dailyCashPct := .str "2%"
          , dailyCashAmt := .str "0.09"
          , Amount := .str "4.50" }
      , type := .null } := by
  refine ⟨rfl, rfl, ?_⟩
  exact c8_new_transaction_fields initState sampleRow "Coffee Shop" "03/01/2024" rfl
    (by decide) rfl rfl

/-- C9: a page whose grouped row count is below 3 yields the empty list
without error. -/
theorem c9_short_page_empty (items : List Item)
    (h : (groupValues items).length < 3) : processPageContent items = .ok [] := by
  simp only [processPageContent, jsReverse]
  rw [if_pos (by simpa using h)]

/-- Witness for C9 at a concrete two-row page. -/
theorem c9_short_page_empty_witness :
    (groupValues twoRowItems).length < 3 ∧ processPageContent twoRowItems = .ok [] :=
  ⟨by decide, c9_short_page_empty twoRowItems (by decide)⟩

/-- C10 counterexample: the claim says every single-column row is handled
by the type-marker branch.  A single-column row whose sole value sits at
bucket 7 and parses as a date fails the type-marker test and is skipped by
the missing-description check instead: the pending state is returned
unchanged, while the type-marker branch would have flushed the pending
transaction. -/
theorem c10_counterexample_single_column_date_row :
    dateOnlyRow.length = 1 ∧
    processRow pendingState dateOnlyRow = .ok pendingState ∧
    typeMarkerStep pendingState dateOnlyRow ≠ pendingState :=
  ⟨rfl, rfl, by decide⟩

/-- C10 (amended): a single-column row is handled by the type-marker branch
exactly when its bucket-7 value does not parse as a date, and is otherwise
skipped by the missing-description check; in both cases, and on every other
row, the continuation-append branch is never executed: replacing it by any
behavior leaves the step unchanged. -/
theorem c10_single_column_classification :
    (∀ (st : LoopState) (v : Row), v.length = 1 →
      processRow st v = .ok (if (jsDateParse (rowGet v 7)).isNone
        then typeMarkerStep st v else st)) ∧
    (∀ (cont : LoopState → String → Except JsErr LoopState) (st : LoopState) (v : Row),
      processRowWith cont st v = processRow st v) := by
  constructor
  · intro st v hv
    rcases singleton_of_length_one hv with ⟨k, s, rfl⟩
    by_cases h7 : (jsDateParse (rowGet [(k, s)] 7)).isNone = true
    · rw [if_pos h7]
      exact processRow_type st _ (by rw [h7]; rfl)
    · rw [if_neg h7]
      have hk : k = 7 := by
        by_contra hk
        apply h7
        have h0 : rowGet [(k, s)] 7 = none := by
          simp only [rowGet]
          rw [if_neg (fun h => hk h.symm)]
        rw [h0]
        rfl
      subst hk
      have hc : ¬((jsDateParse (rowGet [(7, s)] 7)).isNone && [(7, s)].length == 1) = true := by
        intro hb
        simp only [Bool.and_eq_true] at hb
        exact h7 hb.1
      exact processRow_nodesc st _ hc rfl
  · intro cont st v
    unfold processRow processRowWith
    by_cases hc : ((jsDateParse (rowGet v 7)).isNone && v.length == 1) = true
    · rw [if_pos hc, if_pos hc]
    · rw [if_neg hc, if_neg hc]
      cases h21 : rowGet v 21 with
      | none => rfl
      | some d =>
        dsimp only
        by_cases hd : d = ""
        · rw [if_pos hd, if_pos hd]
        · rw [if_neg hd, if_neg hd]
          by_cases hlen : (v.length == 1) = true
          · exfalso
            apply hc
            have hv1 : v.length = 1 := by simpa using hlen
            rcases singleton_of_length_one hv1 with ⟨k, s, hv⟩
            subst hv
            have hk : k = 21 := by
              by_contra hk
              have h0 : rowGet [(k, s)] 21 = none := by
                simp only [rowGet]
                rw [if_neg (fun h => hk h.symm)]
              rw [h0] at h21
              exact Option.noConfusion h21
            subst hk
            rw [show rowGet [(21, s)] 7 = none from rfl]
            rfl
          · rw [if_neg hlen, if_neg hlen]

/-- Witness for C10 at a concrete single-column type-marker row. -/
theorem c10_single_column_classification_witness :
    (([(7, "Payments")] : Row).length = 1) ∧
    processRow initState [(7, "Payments")] =
      .ok (if (jsDateParse (rowGet ([(7, "Payments")] : Row) 7)).isNone
           then typeMarkerStep initState [(7, "Payments")] else initState) :=
  ⟨rfl, c10_single_column_classification.1 initState [(7, "Payments")] rfl⟩

end AppleCardCSV
